import Mathlib

/-!
Shallow embedding of the serverless-access-roles-generator plugin
(src/lib/utils.ts and src/index.ts), together with proofs about the
properties its specification states.

JavaScript semantics are made explicit:
* a single-character string split is modelled by splitting the character
  list and rebuilding strings;
* object property access that may yield undefined is modelled by Option;
* template-literal interpolation of a possibly-undefined value renders
  undefined as the literal text "undefined";
* plain objects used as records are modelled as insertion-ordered
  association lists with unique keys (jsGet / jsSet);
* functions that can throw are modelled in Except String.
-/

namespace Sarg

/-- Model of the Export item type (type/serverless-access-roles-generator.ts). -/
structure Export where
  ExportingStackId : String
  Name : String
  Value : String
deriving DecidableEq

/-- Model of ResourceExport: one pending resource aggregated from exports. -/
structure ResourceExport where
  arn : String
  description : String
  roleOutputKey : String
deriving DecidableEq

/-- Model of ResourceOutput, one entry of the final manifest.  The role field
is the OutputValue of the matched CloudFormation output, which the AWS SDK
types as possibly undefined, hence Option. -/
structure ResourceOutput where
  arn : String
  description : String
  role : Option String
deriving DecidableEq

/-- Model of PrincipalInfo. -/
structure PrincipalInfo where
  principalAccountId : String
  principalRoleName : String
  externalId : String
deriving DecidableEq

/-- Model of CloudFormation.Output: both fields are optional in the SDK. -/
structure CfnOutput where
  OutputKey : Option String
  OutputValue : Option String
deriving DecidableEq

/-- JavaScript s.split(sep) for a one-character separator sep: splits on every
occurrence; the empty string yields a single empty field, exactly as
List.splitOn does on the character list. -/
def jsSplit (sep : Char) (s : String) : List String :=
  (s.data.splitOn sep).map String.mk

/-- JavaScript template-literal rendering of a string that may be undefined:
undefined prints as the text "undefined". -/
def jsStr : Option String → String
  | some s => s
  | none => "undefined"

/-- JavaScript array indexing arr[i] for an integer i: a negative index is an
ordinary (absent) property key, so it yields undefined, never the last
element. -/
def jsIndex (l : List String) (i : Int) : Option String :=
  if i < 0 then none else l.get? i.toNat

/-- A JavaScript plain object used as a string-keyed record, modelled as an
insertion-ordered association list whose keys are unique. -/
abbrev JsRecord (α : Type) := List (String × α)

/-- Property read r[k]: first (unique) entry with key k, or undefined. -/
def jsGet {α : Type} (r : JsRecord α) (k : String) : Option α :=
  match r with
  | [] => none
  | (k', v) :: rest => if k' = k then some v else jsGet rest k

/-- Property write r[k] = v: overwrites in place when k is present (keeping
its position, as JavaScript objects do), otherwise appends at the end. -/
def jsSet {α : Type} (r : JsRecord α) (k : String) (v : α) : JsRecord α :=
  match r with
  | [] => [(k, v)]
  | (k', v') :: rest => if k' = k then (k', v) :: rest else (k', v') :: jsSet rest k v

/-- pascalCase from utils.ts.  For a non-empty string, str.replace(firstChar,
firstChar.toUpperCase()) replaces the first occurrence of the first character,
which is at position 0, so only the first character is uppercased.  For the
empty string, str[0] is undefined and firstChar.toUpperCase() throws a
TypeError before replace is called. -/
def pascalCase (str : String) : Except String String :=
  match str.data with
  | [] => .error "TypeError: Cannot read properties of undefined"
  | c :: cs => .ok (String.mk (Char.toUpper c :: cs))

/-- Result shape of splitExportName: five positional fields, each possibly
undefined because the split is not arity-checked. -/
structure SplitName where
  pfx : Option String
  stackName : Option String
  name : Option String
  type : Option String
  resource : Option String
deriving DecidableEq

/-- splitExportName from utils.ts: split on the colon and read the first five
positions, with no arity validation. -/
def splitExportName (exportName : String) : SplitName :=
  let exportNameArray := jsSplit ':' exportName
  ⟨exportNameArray.get? 0, exportNameArray.get? 1, exportNameArray.get? 2,
   exportNameArray.get? 3, exportNameArray.get? 4⟩

/-- Result shape of splitResourceExportKey. -/
structure SplitKey where
  stackName : String
  name : String
  type : String
deriving DecidableEq

/-- splitResourceExportKey from utils.ts: splits a 3-field key and throws on
any other arity, naming the offending key. -/
def splitResourceExportKey (key : String) : Except String SplitKey :=
  let exportKeyArray := jsSplit ':' key
  if exportKeyArray.length ≠ 3 then
    .error ("Incorrect resource export key: " ++ key)
  else
    .ok ⟨jsStr (exportKeyArray.get? 0), jsStr (exportKeyArray.get? 1),
         jsStr (exportKeyArray.get? 2)⟩

/-- generateIamRoleResourceLogicalName from utils.ts.  The source calls the
last parameter postfix; given Lean's token restrictions we call it suffix
here, its default value "AccessRole" is unchanged. -/
def generateIamRoleResourceLogicalName (stackName name type : String)
    (suffix : String := "AccessRole") : Except String String := do
  let formattedStackName := String.join (← (jsSplit '-' stackName).mapM pascalCase)
  let formattedName ← pascalCase name
  let formattedType ← pascalCase type
  return formattedStackName ++ formattedName ++ formattedType ++ suffix

/-- The entry created on first sight of a key in the collector. -/
def emptyResourceExport : ResourceExport := ⟨"", "", ""⟩

/-- One iteration of the collector loop in collectResourceExportsByPrefix:
skip exports whose decoded first field differs from the configured one;
otherwise create an empty entry for the 3-part key if absent, then set arn or
description when the fifth field says so. -/
def collectStep (exportPfx : String) (resources : JsRecord ResourceExport)
    (e : Export) : JsRecord ResourceExport :=
  let sn := splitExportName e.Name
  if sn.pfx = some exportPfx then
    let key := jsStr sn.stackName ++ ":" ++ jsStr sn.name ++ ":" ++ jsStr sn.type
    let cur := (jsGet resources key).getD emptyResourceExport
    let cur := if sn.resource = some "arn" then { cur with arn := e.Value } else cur
    let cur := if sn.resource = some "description" then { cur with description := e.Value } else cur
    jsSet resources key cur
  else
    resources

/-- collectResourceExportsByPrefix from utils.ts (the name is shortened to
respect Lean token restrictions): fold the collector step over the export
list, starting from the empty record. -/
def collectResourceExportsByPfx (exportPfx : String) (exports : List Export) :
    JsRecord ResourceExport :=
  exports.foldl (collectStep exportPfx) []

/-- A CloudFormation template value: either a plain string or an Fn::Sub
object around a template string. -/
inductive CfnValue where
  | str : String → CfnValue
  | fnSub : String → CfnValue
deriving DecidableEq

/-- The Resource field of a policy statement: a single value or an array. -/
inductive ResourceSpec where
  | one : CfnValue → ResourceSpec
  | many : List CfnValue → ResourceSpec
deriving DecidableEq

/-- Model of IamRoleStatement. -/
structure IamRoleStatement where
  Effect : String
  Action : List String
  Resource : ResourceSpec
deriving DecidableEq

/-- defaultLambdaFunctionPolicyStatements from utils.ts.  The push is guarded
by JavaScript truthiness of logGroupArn, so undefined and the empty string
both skip the second statement. -/
def defaultLambdaFunctionPolicyStatements (functionArn : String)
    (logGroupArn : Option String) : List IamRoleStatement :=
  let statements : List IamRoleStatement :=
    [⟨"Allow", ["lambda:InvokeFunction"], .one (.str functionArn)⟩]
  match logGroupArn with
  | some lg =>
      if lg = "" then statements
      else statements ++
        [⟨"Allow", ["logs:DescribeLogStreams", "logs:GetLogEvents"], .one (.str lg)⟩]
  | none => statements

/-- defaultStateMachinePolicyStatements from utils.ts.  The source reads
arn.split(':')[-1]: in JavaScript a negative array index is an absent
property, so name is undefined and interpolates as the text "undefined". -/
def defaultStateMachinePolicyStatements (arn : String) : List IamRoleStatement :=
  let name := jsStr (jsIndex (jsSplit ':' arn) (-1))
  [⟨"Allow", ["states:ListExecutions", "states:StartExecution"], .one (.str arn)⟩,
   ⟨"Allow", ["states:DescribeExecution"], .many
     [.fnSub ("arn:aws:states:$\x7bAWS::Region\x7d:$\x7bAWS::AccountId\x7d:execution:" ++ name ++ ":*"),
      .fnSub ("arn:aws:states:$\x7bAWS::Region\x7d:$\x7bAWS::AccountId\x7d:express:" ++ name ++ ":*:*")]⟩,
   ⟨"Allow", ["states:StopExecution"], .one
     (.fnSub ("arn:aws:states:$\x7bAWS::Region\x7d:$\x7bAWS::AccountId\x7d:execution:" ++ name ++ ":*"))⟩]

/-- generatePolicyStatementsByType from utils.ts: dispatch on the type
string; the lambda branch passes no log-group ARN. -/
def generatePolicyStatementsByType (arn : String) (type : String) :
    List IamRoleStatement :=
  if type = "function" then defaultLambdaFunctionPolicyStatements arn none
  else if type = "stateMachine" then defaultStateMachinePolicyStatements arn
  else []

/-- Trust-policy statement of a generated role. -/
structure AssumeRoleStatement where
  Effect : String
  Action : List String
  PrincipalAWS : String
  ConditionStringEqualsExternalId : String
deriving DecidableEq

/-- Trust-policy document of a generated role (a single statement object). -/
structure AssumeRolePolicyDocument where
  Version : String
  Statement : AssumeRoleStatement
deriving DecidableEq

/-- Inline policy document of a generated role. -/
structure PolicyDocument where
  Version : String
  Statement : List IamRoleStatement
deriving DecidableEq

/-- One inline policy of a generated role. -/
structure Policy where
  PolicyName : String
  PolicyDocument : PolicyDocument
deriving DecidableEq

/-- Properties of a generated role resource. -/
structure IamRoleProperties where
  RoleName : String
  Description : String
  AssumeRolePolicyDocument : AssumeRolePolicyDocument
  Policies : List Policy
deriving DecidableEq

/-- Model of the CloudFormationResource object returned by
generateAccessRoleResource (its Type field is called type here). -/
structure CloudFormationResource where
  type : String
  Properties : IamRoleProperties
deriving DecidableEq

/-- generateAccessRoleResource from utils.ts. -/
def generateAccessRoleResource (stackName name : String)
    (principalInfo : PrincipalInfo)
    (policyStatements : List IamRoleStatement) : CloudFormationResource :=
  { type := "AWS::IAM::Role"
    Properties :=
      { RoleName := stackName ++ "-" ++ name
        Description := "Access role to " ++ name ++ " of " ++ stackName
        AssumeRolePolicyDocument :=
          { Version := "2012-10-17"
            Statement :=
              { Effect := "Allow"
                Action := ["sts:AssumeRole"]
                PrincipalAWS := "arn:aws:sts::" ++ principalInfo.principalAccountId ++
                  ":assumed-role/" ++ principalInfo.principalRoleName ++
                  "/CognitoIdentityCredentials"
                ConditionStringEqualsExternalId := principalInfo.externalId } }
        Policies :=
          [{ PolicyName := "EmbeddedInlinePolicy"
             PolicyDocument := { Version := "2012-10-17", Statement := policyStatements } }] } }

/-- Model of the output object built by generateAccessRoleOutput: its Value
is the Fn::GetAtt reference [logicalName, "Arn"]. -/
structure GeneratedOutput where
  Description : String
  ValueGetAttTarget : String
  ValueGetAttAttribute : String
deriving DecidableEq

/-- generateAccessRoleOutput from utils.ts. -/
def generateAccessRoleOutput (stackName name logicalName : String) :
    GeneratedOutput :=
  ⟨"Arn of " ++ stackName ++ "-" ++ name ++ " access role", logicalName, "Arn"⟩

/-- State built by the generateAccessRoles loop of index.ts: the generated
resources, the generated outputs, and the pending-resource record whose
entries have been given their roleOutputKey back-reference. -/
structure GeneratedRoles where
  resources : JsRecord CloudFormationResource
  outputs : JsRecord GeneratedOutput
  resourceExports : JsRecord ResourceExport
deriving DecidableEq

/-- generateAccessRoles from index.ts: for each pending resource, decode its
key (which can throw), build the logical name (which can throw), generate the
role resource and its companion output keyed logicalName ++ "Arn", and record
that output key on the pending resource. -/
def generateAccessRoles (principalInfo : PrincipalInfo)
    (resourceExports : JsRecord ResourceExport) : Except String GeneratedRoles :=
  resourceExports.foldlM (fun st kr => do
    let sk ← splitResourceExportKey kr.1
    let logicalName ← generateIamRoleResourceLogicalName sk.stackName sk.name sk.type
    let outputKey := logicalName ++ "Arn"
    Except.ok
      ⟨jsSet st.resources logicalName
         (generateAccessRoleResource sk.stackName sk.name principalInfo
           (generatePolicyStatementsByType kr.2.arn sk.type)),
       jsSet st.outputs outputKey
         (generateAccessRoleOutput sk.stackName sk.name logicalName),
       jsSet st.resourceExports kr.1 { kr.2 with roleOutputKey := outputKey }⟩)
    ⟨[], [], resourceExports⟩

/-- The stackOutputs.filter(...)[0] lookup of
collectAccessRolesArnFromStackOutputs: first output whose OutputKey equals
the role output key, if any. -/
def findRoleOutput (stackOutputs : List CfnOutput) (roleOutputKey : String) :
    Option CfnOutput :=
  (stackOutputs.filter (fun output => output.OutputKey == some roleOutputKey)).head?

/-- key.split(':')[0] of a pending-resource key, as interpolated. -/
def keyStackName (key : String) : String := jsStr ((jsSplit ':' key).get? 0)

/-- key.split(':')[1] of a pending-resource key, as interpolated. -/
def keyFullName (key : String) : String := jsStr ((jsSplit ':' key).get? 1)

/-- One iteration of the loop in collectAccessRolesArnFromStackOutputs:
split the pending key into stack name and resource name, find the matching
stack output (throwing when there is none), and merge the manifest entry
into the nested record, overwriting any earlier entry with the same stack
and resource name. -/
def collectOutputsStep (stackOutputs : List CfnOutput)
    (resourceOutputs : JsRecord (JsRecord ResourceOutput))
    (kr : String × ResourceExport) :
    Except String (JsRecord (JsRecord ResourceOutput)) :=
  match findRoleOutput stackOutputs kr.2.roleOutputKey with
  | none => .error ("Unable to find output: " ++ kr.2.roleOutputKey)
  | some cfnRoleOutput =>
    .ok (jsSet resourceOutputs (keyStackName kr.1)
          (jsSet ((jsGet resourceOutputs (keyStackName kr.1)).getD []) (keyFullName kr.1)
            ⟨kr.2.arn, kr.2.description, cfnRoleOutput.OutputValue⟩))

/-- collectAccessRolesArnFromStackOutputs from utils.ts: walk the pending
resources in insertion order, folding the per-resource step; the whole walk
aborts at the first step that throws, so no manifest is produced then. -/
def collectAccessRolesArnFromStackOutputs (stackOutputs : List CfnOutput)
    (resourceExports : JsRecord ResourceExport) :
    Except String (JsRecord (JsRecord ResourceOutput)) :=
  resourceExports.foldlM (collectOutputsStep stackOutputs) []

/-- The manifest entry built for one pending resource: its arn and
description, and the OutputValue of the stack output matching its
roleOutputKey. -/
def buildResourceOutput (stackOutputs : List CfnOutput)
    (kr : String × ResourceExport) : ResourceOutput :=
  ⟨kr.2.arn, kr.2.description,
   (findRoleOutput stackOutputs kr.2.roleOutputKey).bind CfnOutput.OutputValue⟩

/-- The pure (non-throwing) part of collectOutputsStep, used to describe the
successful run. -/
def mergeOutputsStep (stackOutputs : List CfnOutput)
    (resourceOutputs : JsRecord (JsRecord ResourceOutput))
    (kr : String × ResourceExport) : JsRecord (JsRecord ResourceOutput) :=
  jsSet resourceOutputs (keyStackName kr.1)
    (jsSet ((jsGet resourceOutputs (keyStackName kr.1)).getD []) (keyFullName kr.1)
      (buildResourceOutput stackOutputs kr))

/-- Nested lookup in the manifest: stack name first, then resource name. -/
def jsGetNested (m : JsRecord (JsRecord ResourceOutput)) (s n : String) :
    Option ResourceOutput :=
  (jsGet m s).bind (fun inner => jsGet inner n)

/-- Fold step selecting the last pending resource whose key names stack s
and resource n. -/
def lastStep (s n : String) (acc : Option (String × ResourceExport))
    (kr : String × ResourceExport) : Option (String × ResourceExport) :=
  if keyStackName kr.1 = s ∧ keyFullName kr.1 = n then some kr else acc

/-- The last pending resource whose key names stack s and resource n; the
manifest keeps exactly this one because later entries overwrite earlier
ones. -/
def lastResourceFor (resourceExports : JsRecord ResourceExport) (s n : String) :
    Option (String × ResourceExport) :=
  resourceExports.foldl (lastStep s n) none

/-- The 3-part key the collector computes for an export (undefined decoded
fields render as the text "undefined"). -/
def exportKey (e : Export) : String :=
  jsStr (splitExportName e.Name).stackName ++ ":" ++
    jsStr (splitExportName e.Name).name ++ ":" ++
    jsStr (splitExportName e.Name).type

/-- Whether an export matches the configured first field and computes the
3-part key k. -/
def matchesKeyB (exportPfx k : String) (e : Export) : Bool :=
  decide ((splitExportName e.Name).pfx = some exportPfx ∧ exportKey e = k)

/-- Whether an export matches key k and carries the arn field. -/
def isArnB (exportPfx k : String) (e : Export) : Bool :=
  matchesKeyB exportPfx k e && decide ((splitExportName e.Name).resource = some "arn")

/-- Whether an export matches key k and carries the description field. -/
def isDescB (exportPfx k : String) (e : Export) : Bool :=
  matchesKeyB exportPfx k e && decide ((splitExportName e.Name).resource = some "description")

/-- Value of the last matching arn export for key k, or the empty string. -/
def lastArnValue (exportPfx k : String) (l : List Export) : String :=
  (((l.filter (isArnB exportPfx k)).getLast?).map Export.Value).getD ""

/-- Value of the last matching description export for key k, or the empty
string. -/
def lastDescValue (exportPfx k : String) (l : List Export) : String :=
  (((l.filter (isDescB exportPfx k)).getLast?).map Export.Value).getD ""

/-- The entry value the collector stores for a matching export: the entry
already present for its key (or a fresh empty one), with arn or description
set when the fifth field says so. -/
def curOf (resources : JsRecord ResourceExport) (e : Export) : ResourceExport :=
  let sn := splitExportName e.Name
  let cur := (jsGet resources (exportKey e)).getD emptyResourceExport
  let cur := if sn.resource = some "arn" then { cur with arn := e.Value } else cur
  if sn.resource = some "description" then { cur with description := e.Value } else cur

/-- Spec-side PascalCasing, following the specification's words: uppercase
the first character only, leave the rest unchanged; total on all strings. -/
def pascalCaseSpec (s : String) : String :=
  match s.data with
  | [] => ""
  | c :: cs => String.mk (Char.toUpper c :: cs)

/-! Basic lemmas about the record model. -/

theorem jsGet_jsSet_self {α : Type} (r : JsRecord α) (k : String) (v : α) :
    jsGet (jsSet r k v) k = some v := by
  induction r with
  | nil => simp [jsGet, jsSet]
  | cons hd tl ih =>
    by_cases h : hd.1 = k <;> simp [jsGet, jsSet, h, ih]

theorem jsGet_jsSet_ne {α : Type} (r : JsRecord α) (k k' : String) (v : α)
    (h : k ≠ k') : jsGet (jsSet r k v) k' = jsGet r k' := by
  induction r with
  | nil => simp [jsGet, jsSet, h]
  | cons hd tl ih =>
    by_cases h1 : hd.1 = k <;> by_cases h2 : hd.1 = k' <;>
      simp_all [jsGet, jsSet]

theorem stringMk_data (s : String) : String.mk s.data = s := rfl

theorem except_bind_error {ε α β : Type} (e : ε) (f : α → Except ε β) :
    (Except.error e >>= f) = Except.error e := rfl

theorem except_bind_ok {ε α β : Type} (a : α) (f : α → Except ε β) :
    (Except.ok a >>= f) = f a := rfl

/-! Lemmas about pascalCase. -/

theorem pascalCase_empty :
    pascalCase "" = .error "TypeError: Cannot read properties of undefined" := rfl

theorem pascalCase_ok (s : String) (h : s ≠ "") :
    pascalCase s = .ok (pascalCaseSpec s) := by
  cases s with
  | mk data =>
    cases data with
    | nil => exact absurd rfl h
    | cons c cs => rfl

theorem mapM_pascalCase_ok (l : List String) (h : "" ∉ l) :
    l.mapM pascalCase = .ok (l.map pascalCaseSpec) := by
  induction l with
  | nil => rfl
  | cons hd tl ih =>
    have hhd : hd ≠ "" := fun he => h (by simp [he])
    have htl : "" ∉ tl := fun he => h (by simp [he])
    rw [List.mapM_cons, pascalCase_ok hd hhd, ih htl]
    rfl

theorem mapM_pascalCase_error (l : List String) (h : "" ∈ l) :
    ∃ msg, l.mapM pascalCase = .error msg := by
  induction l with
  | nil => simp at h
  | cons hd tl ih =>
    rcases List.mem_cons.mp h with h1 | h1
    · exact ⟨_, by rw [List.mapM_cons, ← h1, pascalCase_empty]; rfl⟩
    · cases hp : pascalCase hd with
      | error e => exact ⟨e, by rw [List.mapM_cons, hp]; rfl⟩
      | ok v =>
        obtain ⟨msg, hmsg⟩ := ih h1
        exact ⟨msg, by rw [List.mapM_cons, hp, except_bind_ok, hmsg]; rfl⟩

/-- C10: generateIamRoleResourceLogicalName succeeds exactly when every
hyphen-separated segment of the stack name, the resource name, and the type
are non-empty; on any empty one, pascalCase throws. -/
theorem c10_logical_name_totality (stackName name type : String) :
    (∃ v, generateIamRoleResourceLogicalName stackName name type = .ok v) ↔
      ("" ∉ jsSplit '-' stackName ∧ name ≠ "" ∧ type ≠ "") := by
  constructor
  · rintro ⟨v, hv⟩
    refine ⟨?_, ?_, ?_⟩
    · by_contra hmem
      obtain ⟨msg, hm⟩ := mapM_pascalCase_error _ hmem
      rw [generateIamRoleResourceLogicalName, hm, except_bind_error] at hv
      exact Except.noConfusion hv
    · intro hn
      rw [generateIamRoleResourceLogicalName] at hv
      cases hmm : (jsSplit '-' stackName).mapM pascalCase with
      | error e => rw [hmm, except_bind_error] at hv; exact Except.noConfusion hv
      | ok segs =>
        rw [hmm, except_bind_ok, hn, pascalCase_empty, except_bind_error] at hv
        exact Except.noConfusion hv
    · intro ht
      rw [generateIamRoleResourceLogicalName] at hv
      cases hmm : (jsSplit '-' stackName).mapM pascalCase with
      | error e => rw [hmm, except_bind_error] at hv; exact Except.noConfusion hv
      | ok segs =>
        rw [hmm, except_bind_ok] at hv
        cases hpn : pascalCase name with
        | error e => rw [hpn, except_bind_error] at hv; exact Except.noConfusion hv
        | ok vn =>
          rw [hpn, except_bind_ok, ht, pascalCase_empty, except_bind_error] at hv
          exact Except.noConfusion hv
  · rintro ⟨h1, h2, h3⟩
    exact ⟨_, by
      rw [generateIamRoleResourceLogicalName, mapM_pascalCase_ok _ h1, except_bind_ok,
        pascalCase_ok name h2, except_bind_ok, pascalCase_ok type h3, except_bind_ok]
      rfl⟩

/-- C4: the logical name is the concatenation of the PascalCased
hyphen-segments of the stack name, the PascalCased name, the PascalCased
type and the suffix AccessRole; and on the end-to-end example the generated
companion output key is OrdersCreateOrderFunctionAccessRoleArn. -/
theorem c4_logical_name_shape (stackName name type : String)
    (h1 : "" ∉ jsSplit '-' stackName) (h2 : name ≠ "") (h3 : type ≠ "") :
    generateIamRoleResourceLogicalName stackName name type =
      .ok (String.join ((jsSplit '-' stackName).map pascalCaseSpec) ++
        pascalCaseSpec name ++ pascalCaseSpec type ++ "AccessRole") ∧
    generateIamRoleResourceLogicalName "orders" "createOrder" "function" =
      .ok "OrdersCreateOrderFunctionAccessRole" ∧
    Except.map (fun st => st.outputs.map Prod.fst)
      (generateAccessRoles ⟨"111122223333", "deployRole", "extId"⟩
        [("orders:createOrder:function", ⟨"arnA", "descA", ""⟩)]) =
      .ok ["OrdersCreateOrderFunctionAccessRoleArn"] := by
  refine ⟨?_, rfl, rfl⟩
  rw [generateIamRoleResourceLogicalName, mapM_pascalCase_ok _ h1, except_bind_ok,
    pascalCase_ok name h2, except_bind_ok, pascalCase_ok type h3, except_bind_ok]
  rfl

theorem c4_logical_name_shape_witness :
    ("" ∉ jsSplit '-' "orders") ∧ ("createOrder" ≠ "") ∧ ("function" ≠ "") ∧
    generateIamRoleResourceLogicalName "orders" "createOrder" "function" =
      .ok (String.join ((jsSplit '-' "orders").map pascalCaseSpec) ++
        pascalCaseSpec "createOrder" ++ pascalCaseSpec "function" ++ "AccessRole") :=
  ⟨by decide, by decide, by decide,
   (c4_logical_name_shape "orders" "createOrder" "function"
     (by decide) (by decide) (by decide)).1⟩

/-- C2: on a concrete state-machine ARN whose last colon-separated segment
is "orders", the derived execution, express and stop-execution ARN templates
all embed the text "undefined" in place of the name, because the negative
array index yields undefined; the last segment really is "orders". -/
theorem c2_derived_arns_embed_undefined :
    defaultStateMachinePolicyStatements
        "arn:aws:states:us-east-1:123456789012:stateMachine:orders" =
      [⟨"Allow", ["states:ListExecutions", "states:StartExecution"],
        .one (.str "arn:aws:states:us-east-1:123456789012:stateMachine:orders")⟩,
       ⟨"Allow", ["states:DescribeExecution"], .many
         [.fnSub "arn:aws:states:$\x7bAWS::Region\x7d:$\x7bAWS::AccountId\x7d:execution:undefined:*",
          .fnSub "arn:aws:states:$\x7bAWS::Region\x7d:$\x7bAWS::AccountId\x7d:express:undefined:*:*"]⟩,
       ⟨"Allow", ["states:StopExecution"], .one
         (.fnSub "arn:aws:states:$\x7bAWS::Region\x7d:$\x7bAWS::AccountId\x7d:execution:undefined:*")⟩] ∧
    (jsSplit ':' "arn:aws:states:us-east-1:123456789012:stateMachine:orders").getLast? =
      some "orders" := by
  exact ⟨by decide, by decide⟩

/-- C5: the function branch yields exactly the single invoke statement (two
statements only when a non-empty log-group ARN is passed to the underlying
generator), the stateMachine branch yields exactly three statements, and any
other type yields the empty list. -/
theorem c5_statement_counts (arn ty lg : String) (hlg : lg ≠ "")
    (hty1 : ty ≠ "function") (hty2 : ty ≠ "stateMachine") :
    generatePolicyStatementsByType arn "function" =
      [⟨"Allow", ["lambda:InvokeFunction"], .one (.str arn)⟩] ∧
    (defaultLambdaFunctionPolicyStatements arn (some lg)).length = 2 ∧
    (generatePolicyStatementsByType arn "stateMachine").length = 3 ∧
    generatePolicyStatementsByType arn ty = [] := by
  refine ⟨rfl, ?_, rfl, ?_⟩
  · simp [defaultLambdaFunctionPolicyStatements, hlg]
  · simp [generatePolicyStatementsByType, hty1, hty2]

theorem c5_statement_counts_witness :
    ("lg" ≠ "") ∧ ("queue" ≠ "function") ∧ ("queue" ≠ "stateMachine") ∧
    generatePolicyStatementsByType "a" "queue" = [] :=
  ⟨by decide, by decide, by decide,
   (c5_statement_counts "a" "queue" "lg" (by decide) (by decide) (by decide)).2.2.2⟩

/-- C6: the generated access role names, describes, trusts and embeds
exactly as claimed: RoleName stackName-name, the fixed description, a single
trust statement for the CognitoIdentityCredentials assumed-role principal
under the sts:ExternalId condition, and one inline policy named
EmbeddedInlinePolicy holding the supplied statements verbatim. -/
theorem c6_access_role_resource (stackName name : String)
    (principalInfo : PrincipalInfo) (policyStatements : List IamRoleStatement) :
    (generateAccessRoleResource stackName name principalInfo policyStatements).type =
      "AWS::IAM::Role" ∧
    (generateAccessRoleResource stackName name principalInfo policyStatements).Properties.RoleName =
      stackName ++ "-" ++ name ∧
    (generateAccessRoleResource stackName name principalInfo policyStatements).Properties.Description =
      "Access role to " ++ name ++ " of " ++ stackName ∧
    (generateAccessRoleResource stackName name principalInfo policyStatements).Properties.AssumeRolePolicyDocument =
      ⟨"2012-10-17",
       ⟨"Allow", ["sts:AssumeRole"],
        "arn:aws:sts::" ++ principalInfo.principalAccountId ++ ":assumed-role/" ++
          principalInfo.principalRoleName ++ "/CognitoIdentityCredentials",
        principalInfo.externalId⟩⟩ ∧
    (generateAccessRoleResource stackName name principalInfo policyStatements).Properties.Policies =
      [⟨"EmbeddedInlinePolicy", ⟨"2012-10-17", policyStatements⟩⟩] :=
  ⟨rfl, rfl, rfl, rfl, rfl⟩

theorem splitKey_ok (key a b c : String) (h : jsSplit ':' key = [a, b, c]) :
    splitResourceExportKey key = .ok ⟨a, b, c⟩ := by
  simp [splitResourceExportKey, h, jsStr]

/-- C7: splitResourceExportKey throws, naming the offending key, exactly
when the colon-split of the key does not have three fields; on a three-field
split it returns the fields positionally. -/
theorem c7_split_resource_export_key (key : String) :
    ((jsSplit ':' key).length ≠ 3 →
      splitResourceExportKey key = .error ("Incorrect resource export key: " ++ key)) ∧
    (∀ a b c, jsSplit ':' key = [a, b, c] →
      splitResourceExportKey key = .ok ⟨a, b, c⟩) := by
  constructor
  · intro h
    simp [splitResourceExportKey, h]
  · exact fun a b c h => splitKey_ok key a b c h

theorem c7_split_resource_export_key_witness :
    ((jsSplit ':' "a:b").length ≠ 3 ∧
      splitResourceExportKey "a:b" = .error ("Incorrect resource export key: " ++ "a:b")) ∧
    (jsSplit ':' "x:y:z" = ["x", "y", "z"] ∧
      splitResourceExportKey "x:y:z" = .ok ⟨"x", "y", "z"⟩) :=
  ⟨⟨by decide, (c7_split_resource_export_key "a:b").1 (by decide)⟩,
   ⟨by decide, (c7_split_resource_export_key "x:y:z").2 "x" "y" "z" (by decide)⟩⟩

/-! Lemmas for the encode/decode round trip. -/

theorem beq_colon_false {l : List Char} (hl : ':' ∉ l) :
    ∀ x ∈ l, ¬((x == ':') = true) := by
  intro x hx
  simp only [beq_iff_eq]
  intro he
  exact hl (he ▸ hx)

theorem jsSplit_append3 (s n t : String) (hs : ':' ∉ s.data) (hn : ':' ∉ n.data)
    (ht : ':' ∉ t.data) :
    jsSplit ':' (s ++ ":" ++ n ++ ":" ++ t) = [s, n, t] := by
  have hdata : (s ++ ":" ++ n ++ ":" ++ t).data =
      s.data ++ ':' :: (n.data ++ ':' :: t.data) := by
    simp [String.data_append]
  rw [jsSplit, hdata, List.splitOn,
    List.splitOnP_first _ _ (beq_colon_false hs) ':' (by simp),
    List.splitOnP_first _ _ (beq_colon_false hn) ':' (by simp),
    List.splitOnP_eq_single _ _ (beq_colon_false ht)]
  simp [stringMk_data]

/-- C9: decoding is a left inverse of the 3-part key encoding used by the
collector: on delimiter-free fields, splitResourceExportKey returns exactly
the three joined fields. -/
theorem c9_decode_left_inverse (s n t : String) (hs : ':' ∉ s.data)
    (hn : ':' ∉ n.data) (ht : ':' ∉ t.data) :
    splitResourceExportKey (s ++ ":" ++ n ++ ":" ++ t) = .ok ⟨s, n, t⟩ :=
  splitKey_ok _ s n t (jsSplit_append3 s n t hs hn ht)

theorem c9_decode_left_inverse_witness :
    (':' ∉ "orders".data) ∧ (':' ∉ "createOrder".data) ∧ (':' ∉ "function".data) ∧
    splitResourceExportKey ("orders" ++ ":" ++ "createOrder" ++ ":" ++ "function") =
      .ok ⟨"orders", "createOrder", "function"⟩ :=
  ⟨by decide, by decide, by decide,
   c9_decode_left_inverse "orders" "createOrder" "function"
     (by decide) (by decide) (by decide)⟩

/-! Lemmas about the collector. -/

theorem collectStep_eq (exportPfx : String) (r : JsRecord ResourceExport) (e : Export) :
    collectStep exportPfx r e =
      if (splitExportName e.Name).pfx = some exportPfx then
        jsSet r (exportKey e) (curOf r e)
      else r := rfl

theorem collectStep_invariant (exportPfx key : String) (e : Export)
    (A B : JsRecord ResourceExport)
    (h1 : ∀ k, k ≠ key → jsGet A k = jsGet B k)
    (h2 : jsGet A key = some ((jsGet B key).getD emptyResourceExport)) :
    (∀ k, k ≠ key →
      jsGet (collectStep exportPfx A e) k = jsGet (collectStep exportPfx B e) k) ∧
    jsGet (collectStep exportPfx A e) key =
      some ((jsGet (collectStep exportPfx B e) key).getD emptyResourceExport) := by
  rw [collectStep_eq, collectStep_eq]
  by_cases hp : (splitExportName e.Name).pfx = some exportPfx
  · simp only [if_pos hp]
    have hcur : curOf A e = curOf B e := by
      unfold curOf
      by_cases hk : exportKey e = key
      · rw [hk, h2]
        simp
      · rw [h1 _ hk]
    constructor
    · intro k hkk
      by_cases hke : k = exportKey e
      · subst hke
        rw [jsGet_jsSet_self, jsGet_jsSet_self, hcur]
      · rw [jsGet_jsSet_ne _ _ _ _ (fun he => hke he.symm),
          jsGet_jsSet_ne _ _ _ _ (fun he => hke he.symm)]
        exact h1 k hkk
    · by_cases hk : exportKey e = key
      · rw [hk, jsGet_jsSet_self, jsGet_jsSet_self, hcur]
        simp
      · rw [jsGet_jsSet_ne _ _ _ _ hk, jsGet_jsSet_ne _ _ _ _ hk]
        exact h2
  · simp only [if_neg hp]
    exact ⟨h1, h2⟩

theorem collectFold_invariant (exportPfx key : String) :
    ∀ (l : List Export) (A B : JsRecord ResourceExport),
      (∀ k, k ≠ key → jsGet A k = jsGet B k) →
      jsGet A key = some ((jsGet B key).getD emptyResourceExport) →
      (∀ k, k ≠ key → jsGet (l.foldl (collectStep exportPfx) A) k =
        jsGet (l.foldl (collectStep exportPfx) B) k) ∧
      jsGet (l.foldl (collectStep exportPfx) A) key =
        some ((jsGet (l.foldl (collectStep exportPfx) B) key).getD emptyResourceExport) := by
  intro l
  induction l with
  | nil => exact fun A B h1 h2 => ⟨h1, h2⟩
  | cons e tl ih =>
    intro A B h1 h2
    simp only [List.foldl_cons]
    obtain ⟨h1', h2'⟩ := collectStep_invariant exportPfx key e A B h1 h2
    exact ih _ _ h1' h2'

/-- C3 counterexample: a single export whose decoded first field matches the
configured one but whose fifth field is neither arn nor description is not
ignored - it creates an empty entry for its key, so the map differs from the
map computed without it. -/
theorem c3_counterexample_field_neither :
    collectResourceExportsByPfx "aser" [⟨"stackId", "aser:s:n:t:bogus", "v"⟩] ≠
      collectResourceExportsByPfx "aser" [] := by decide

/-- C3 amended: an export whose decoded first field differs from the
configured one is ignored, and the map is the one computed with it removed;
an export with matching first field whose fifth field is neither arn nor
description sets no field, but does ensure an entry for its 3-part key: at
every other key the map is unchanged, and at its key the map holds exactly
the entry computed with the export removed, or a fresh empty entry when
there is none. -/
theorem c3_nonmatching_exports (exportPfx : String) (l1 l2 : List Export) (e : Export) :
    ((splitExportName e.Name).pfx ≠ some exportPfx →
      collectResourceExportsByPfx exportPfx (l1 ++ e :: l2) =
        collectResourceExportsByPfx exportPfx (l1 ++ l2)) ∧
    ((splitExportName e.Name).pfx = some exportPfx →
      (splitExportName e.Name).resource ≠ some "arn" →
      (splitExportName e.Name).resource ≠ some "description" →
      (∀ k, k ≠ exportKey e →
        jsGet (collectResourceExportsByPfx exportPfx (l1 ++ e :: l2)) k =
          jsGet (collectResourceExportsByPfx exportPfx (l1 ++ l2)) k) ∧
      jsGet (collectResourceExportsByPfx exportPfx (l1 ++ e :: l2)) (exportKey e) =
        some ((jsGet (collectResourceExportsByPfx exportPfx (l1 ++ l2)) (exportKey e)).getD
          emptyResourceExport)) := by
  constructor
  · intro hp
    unfold collectResourceExportsByPfx
    rw [List.foldl_append, List.foldl_append, List.foldl_cons]
    congr 1
    rw [collectStep_eq, if_neg hp]
  · intro hp ha hd
    unfold collectResourceExportsByPfx
    rw [List.foldl_append, List.foldl_append, List.foldl_cons]
    apply collectFold_invariant
    · intro k hk
      rw [collectStep_eq, if_pos hp,
        jsGet_jsSet_ne _ _ _ _ (fun he => hk he.symm)]
    · rw [collectStep_eq, if_pos hp, jsGet_jsSet_self]
      have : curOf (l1.foldl (collectStep exportPfx) []) e =
          (jsGet (l1.foldl (collectStep exportPfx) []) (exportKey e)).getD
            emptyResourceExport := by
        simp only [curOf]
        rw [if_neg ha, if_neg hd]
      rw [this]

theorem c3_nonmatching_exports_witness :
    ((splitExportName "other:s:n:t:arn").pfx ≠ some "aser") ∧
    collectResourceExportsByPfx "aser" [⟨"stackId", "other:s:n:t:arn", "v"⟩] =
      collectResourceExportsByPfx "aser" [] :=
  ⟨by decide,
   (c3_nonmatching_exports "aser" [] [] ⟨"stackId", "other:s:n:t:arn", "v"⟩).1 (by decide)⟩

/-! Lemmas about the post-deploy output resolution. -/

theorem foldlM_collect_error (stackOutputs : List CfnOutput) :
    ∀ (l : JsRecord ResourceExport) (acc : JsRecord (JsRecord ResourceOutput))
      (kr : String × ResourceExport),
      l.find? (fun kr => (findRoleOutput stackOutputs kr.2.roleOutputKey).isNone) = some kr →
      l.foldlM (collectOutputsStep stackOutputs) acc =
        .error ("Unable to find output: " ++ kr.2.roleOutputKey) := by
  intro l
  induction l with
  | nil => intro acc kr h; simp [List.find?] at h
  | cons hd tl ih =>
    intro acc kr h
    rw [List.foldlM_cons]
    cases hf : findRoleOutput stackOutputs hd.2.roleOutputKey with
    | none =>
      rw [show List.find?
            (fun kr => (findRoleOutput stackOutputs kr.2.roleOutputKey).isNone)
            (hd :: tl) = some hd from
          List.find?_cons_of_pos _ (by simp [hf])] at h
      injection h with h
      subst h
      have hstep : collectOutputsStep stackOutputs acc hd =
          .error ("Unable to find output: " ++ hd.2.roleOutputKey) := by
        simp [collectOutputsStep, hf]
      rw [hstep, except_bind_error]
    | some o =>
      rw [show List.find?
            (fun kr => (findRoleOutput stackOutputs kr.2.roleOutputKey).isNone)
            (hd :: tl) =
          List.find?
            (fun kr => (findRoleOutput stackOutputs kr.2.roleOutputKey).isNone) tl from
          List.find?_cons_of_neg _ (by simp [hf])] at h
      have hstep : collectOutputsStep stackOutputs acc hd =
          .ok (mergeOutputsStep stackOutputs acc hd) := by
        simp [collectOutputsStep, mergeOutputsStep, buildResourceOutput, hf]
      rw [hstep, except_bind_ok]
      exact ih _ kr h

theorem foldlM_collect_ok (stackOutputs : List CfnOutput) :
    ∀ (l : JsRecord ResourceExport) (acc : JsRecord (JsRecord ResourceOutput)),
      (∀ kr ∈ l, (findRoleOutput stackOutputs kr.2.roleOutputKey).isSome) →
      l.foldlM (collectOutputsStep stackOutputs) acc =
        .ok (l.foldl (mergeOutputsStep stackOutputs) acc) := by
  intro l
  induction l with
  | nil => intro acc _; rfl
  | cons hd tl ih =>
    intro acc h
    rw [List.foldlM_cons, List.foldl_cons]
    have hhd := h hd (List.mem_cons_self hd tl)
    cases hf : findRoleOutput stackOutputs hd.2.roleOutputKey with
    | none => rw [hf] at hhd; simp at hhd
    | some o =>
      have hstep : collectOutputsStep stackOutputs acc hd =
          .ok (mergeOutputsStep stackOutputs acc hd) := by
        simp [collectOutputsStep, mergeOutputsStep, buildResourceOutput, hf]
      rw [hstep, except_bind_ok]
      exact ih _ (fun kr hkr => h kr (List.mem_cons_of_mem _ hkr))

theorem lastStep_acc (s n : String) :
    ∀ (l : JsRecord ResourceExport) (a : Option (String × ResourceExport)),
      l.foldl (lastStep s n) a =
        match l.foldl (lastStep s n) none with
        | some x => some x
        | none => a := by
  intro l
  induction l with
  | nil => intro a; rfl
  | cons hd tl ih =>
    intro a
    rw [List.foldl_cons, List.foldl_cons, ih (lastStep s n a hd),
      ih (lastStep s n none hd)]
    cases hF : tl.foldl (lastStep s n) none with
    | some x => rfl
    | none =>
      by_cases hc : keyStackName hd.1 = s ∧ keyFullName hd.1 = n
      · simp [lastStep, hc]
      · simp [lastStep, hc]

theorem jsGetNested_merge (stackOutputs : List CfnOutput)
    (acc : JsRecord (JsRecord ResourceOutput)) (kr : String × ResourceExport)
    (s n : String) :
    jsGetNested (mergeOutputsStep stackOutputs acc kr) s n =
      if keyStackName kr.1 = s ∧ keyFullName kr.1 = n then
        some (buildResourceOutput stackOutputs kr)
      else jsGetNested acc s n := by
  unfold mergeOutputsStep jsGetNested
  by_cases hS : keyStackName kr.1 = s
  · subst hS
    rw [jsGet_jsSet_self]
    by_cases hN : keyFullName kr.1 = n
    · subst hN
      rw [Option.some_bind, jsGet_jsSet_self, if_pos ⟨rfl, rfl⟩]
    · rw [Option.some_bind, jsGet_jsSet_ne _ _ _ _ hN, if_neg (fun hand => hN hand.2)]
      cases hacc : jsGet acc (keyStackName kr.1) <;> simp [jsGet]
  · rw [jsGet_jsSet_ne _ _ _ _ hS, if_neg (fun hand => hS hand.1)]

theorem jsGetNested_foldl_merge (stackOutputs : List CfnOutput) (s n : String) :
    ∀ (l : JsRecord ResourceExport) (acc : JsRecord (JsRecord ResourceOutput)),
      jsGetNested (l.foldl (mergeOutputsStep stackOutputs) acc) s n =
        match l.foldl (lastStep s n) none with
        | some kr => some (buildResourceOutput stackOutputs kr)
        | none => jsGetNested acc s n := by
  intro l
  induction l with
  | nil => intro acc; rfl
  | cons hd tl ih =>
    intro acc
    rw [List.foldl_cons, List.foldl_cons, ih, lastStep_acc s n tl (lastStep s n none hd)]
    cases hF : tl.foldl (lastStep s n) none with
    | some x => rfl
    | none =>
      rw [jsGetNested_merge]
      by_cases hc : keyStackName hd.1 = s ∧ keyFullName hd.1 = n
      · rw [if_pos hc]
        simp [lastStep, hc]
      · rw [if_neg hc]
        simp [lastStep, hc]

/-- C1: if some pending resource's roleOutputKey matches no stack output,
the resolution throws - at the first such resource in insertion order, with
a message naming its missing key - and no manifest is produced; if every
roleOutputKey is matched, it returns the nested map holding, for each stack
name and resource name, exactly the entry built from the last pending
resource carrying that pair (so a duplicate resource name within a stack
replaces the earlier entry), whose role is the matching output's value. -/
theorem c1_collect_access_roles (stackOutputs : List CfnOutput)
    (resourceExports : JsRecord ResourceExport) :
    (∀ kr, resourceExports.find?
        (fun kr => (findRoleOutput stackOutputs kr.2.roleOutputKey).isNone) = some kr →
      collectAccessRolesArnFromStackOutputs stackOutputs resourceExports =
        .error ("Unable to find output: " ++ kr.2.roleOutputKey)) ∧
    ((∀ kr ∈ resourceExports, (findRoleOutput stackOutputs kr.2.roleOutputKey).isSome) →
      ∃ m, collectAccessRolesArnFromStackOutputs stackOutputs resourceExports = .ok m ∧
        ∀ s n, jsGetNested m s n =
          (lastResourceFor resourceExports s n).map (buildResourceOutput stackOutputs)) := by
  constructor
  · intro kr h
    exact foldlM_collect_error stackOutputs resourceExports [] kr h
  · intro h
    refine ⟨_, foldlM_collect_ok stackOutputs resourceExports [] h, ?_⟩
    intro s n
    rw [jsGetNested_foldl_merge]
    unfold lastResourceFor
    cases hF : resourceExports.foldl (lastStep s n) none <;> simp [jsGetNested, jsGet]

theorem c1_collect_access_roles_witness :
    ([(("orders:createOrder:function" : String),
        (⟨"arnA", "descA", "MissingKey"⟩ : ResourceExport))].find?
      (fun kr => (findRoleOutput [] kr.2.roleOutputKey).isNone) =
        some ("orders:createOrder:function", ⟨"arnA", "descA", "MissingKey"⟩)) ∧
    collectAccessRolesArnFromStackOutputs []
        [("orders:createOrder:function", ⟨"arnA", "descA", "MissingKey"⟩)] =
      .error ("Unable to find output: " ++ "MissingKey") ∧
    (∀ kr ∈ [(("orders:createOrder:function" : String),
        (⟨"arnA", "descA", "RoleArn"⟩ : ResourceExport))],
      (findRoleOutput [⟨some "RoleArn", some "arn:aws:iam::1:role/x"⟩]
        kr.2.roleOutputKey).isSome) ∧
    (∃ m, collectAccessRolesArnFromStackOutputs
        [⟨some "RoleArn", some "arn:aws:iam::1:role/x"⟩]
        [("orders:createOrder:function", ⟨"arnA", "descA", "RoleArn"⟩)] = .ok m ∧
      ∀ s n, jsGetNested m s n =
        (lastResourceFor [("orders:createOrder:function", ⟨"arnA", "descA", "RoleArn"⟩)] s n).map
          (buildResourceOutput [⟨some "RoleArn", some "arn:aws:iam::1:role/x"⟩])) :=
  ⟨by decide,
   (c1_collect_access_roles []
     [("orders:createOrder:function", ⟨"arnA", "descA", "MissingKey"⟩)]).1
     ("orders:createOrder:function", ⟨"arnA", "descA", "MissingKey"⟩) (by decide),
   by decide,
   (c1_collect_access_roles [⟨some "RoleArn", some "arn:aws:iam::1:role/x"⟩]
     [("orders:createOrder:function", ⟨"arnA", "descA", "RoleArn"⟩)]).2 (by decide)⟩

/-! Canonical description of the collector, and its order-independence. -/

theorem matchesKeyB_eq_true {exportPfx k : String} {e : Export} :
    matchesKeyB exportPfx k e = true ↔
      ((splitExportName e.Name).pfx = some exportPfx ∧ exportKey e = k) := by
  simp [matchesKeyB]

theorem collect_char (exportPfx : String) :
    ∀ (l : List Export) (k : String),
      jsGet (collectResourceExportsByPfx exportPfx l) k =
        if l.any (matchesKeyB exportPfx k) then
          some ⟨lastArnValue exportPfx k l, lastDescValue exportPfx k l, ""⟩
        else none := by
  intro l
  induction l using List.reverseRecOn with
  | nil => intro k; rfl
  | append_singleton l e ih =>
    intro k
    unfold collectResourceExportsByPfx at ih ⊢
    rw [List.foldl_append, List.foldl_cons, List.foldl_nil, collectStep_eq]
    by_cases hp : (splitExportName e.Name).pfx = some exportPfx
    · by_cases hk : exportKey e = k
      · subst hk
        rw [if_pos hp, jsGet_jsSet_self]
        have hm : matchesKeyB exportPfx (exportKey e) e = true := by
          simp [matchesKeyB, hp]
        have hany : (l ++ [e]).any (matchesKeyB exportPfx (exportKey e)) = true := by
          simp [List.any_append, hm]
        rw [if_pos hany]
        have hbase : (jsGet (List.foldl (collectStep exportPfx) [] l) (exportKey e)).getD
            emptyResourceExport =
            ⟨lastArnValue exportPfx (exportKey e) l,
             lastDescValue exportPfx (exportKey e) l, ""⟩ := by
          rw [ih (exportKey e)]
          by_cases hany' : l.any (matchesKeyB exportPfx (exportKey e)) = true
          · rw [if_pos hany']
            rfl
          · rw [if_neg hany']
            have hall := List.any_eq_false.mp (Bool.eq_false_iff.mpr hany')
            have h1 : l.filter (isArnB exportPfx (exportKey e)) = [] := by
              rw [List.filter_eq_nil_iff]
              intro a ha hIs
              simp only [isArnB] at hIs
              rw [Bool.and_eq_true] at hIs
              exact hall a ha hIs.1
            have h2 : l.filter (isDescB exportPfx (exportKey e)) = [] := by
              rw [List.filter_eq_nil_iff]
              intro a ha hIs
              simp only [isDescB] at hIs
              rw [Bool.and_eq_true] at hIs
              exact hall a ha hIs.1
            simp [lastArnValue, lastDescValue, h1, h2, emptyResourceExport]
        simp only [curOf]
        rw [hbase]
        by_cases hra : (splitExportName e.Name).resource = some "arn"
        · rw [if_pos hra, if_neg (by simp [hra])]
          have hfa : isArnB exportPfx (exportKey e) e = true := by
            simp [isArnB, hm, hra]
          have hfd : isDescB exportPfx (exportKey e) e = false := by
            simp [isDescB, hra]
          simp [lastArnValue, lastDescValue, List.filter_append, hfa, hfd,
            List.getLast?_concat]
        · by_cases hrd : (splitExportName e.Name).resource = some "description"
          · rw [if_neg hra, if_pos hrd]
            have hfa : isArnB exportPfx (exportKey e) e = false := by
              simp [isArnB, hrd]
            have hfd : isDescB exportPfx (exportKey e) e = true := by
              simp [isDescB, hm, hrd]
            simp [lastArnValue, lastDescValue, List.filter_append, hfa, hfd,
              List.getLast?_concat]
          · rw [if_neg hra, if_neg hrd]
            have hfa : isArnB exportPfx (exportKey e) e = false := by
              simp [isArnB, hra]
            have hfd : isDescB exportPfx (exportKey e) e = false := by
              simp [isDescB, hrd]
            simp [lastArnValue, lastDescValue, List.filter_append, hfa, hfd]
      · rw [if_pos hp, jsGet_jsSet_ne _ _ _ _ hk, ih k]
        have hm : matchesKeyB exportPfx k e = false := by
          simp [matchesKeyB, hk]
        have hfa : isArnB exportPfx k e = false := by simp [isArnB, hm]
        have hfd : isDescB exportPfx k e = false := by simp [isDescB, hm]
        simp [List.any_append, hm, lastArnValue, lastDescValue, List.filter_append,
          hfa, hfd]
    · rw [if_neg hp, ih k]
      have hm : matchesKeyB exportPfx k e = false := by
        simp [matchesKeyB, hp]
      have hfa : isArnB exportPfx k e = false := by simp [isArnB, hm]
      have hfd : isDescB exportPfx k e = false := by simp [isDescB, hm]
      simp [List.any_append, hm, lastArnValue, lastDescValue, List.filter_append,
        hfa, hfd]

theorem perm_eq_of_length_le_one {α : Type} {l1 l2 : List α} (h : l1.Perm l2)
    (hlen : l2.length ≤ 1) : l1 = l2 := by
  cases l2 with
  | nil => exact h.eq_nil
  | cons a t =>
    cases t with
    | nil => exact List.perm_singleton.mp h
    | cons b t2 => simp at hlen

theorem any_perm {α : Type} {l1 l2 : List α} (h : l1.Perm l2) (f : α → Bool) :
    l1.any f = l2.any f := by
  apply Bool.eq_iff_iff.mpr
  simp only [List.any_eq_true]
  exact ⟨fun ⟨x, hx, hf⟩ => ⟨x, h.mem_iff.mp hx, hf⟩,
    fun ⟨x, hx, hf⟩ => ⟨x, h.mem_iff.mpr hx, hf⟩⟩

theorem jsSet_keys {α : Type} (r : JsRecord α) (k : String) (v : α) :
    (jsSet r k v).map Prod.fst =
      if k ∈ r.map Prod.fst then r.map Prod.fst else r.map Prod.fst ++ [k] := by
  induction r with
  | nil => simp [jsSet]
  | cons hd tl ih =>
    by_cases h : hd.1 = k
    · simp [jsSet, h]
    · have h' : ¬(k = hd.1) := fun he => h he.symm
      by_cases hm : k ∈ tl.map Prod.fst <;>
        simp [jsSet, h, h', ih, hm, List.mem_cons]

theorem collect_keys_nodup (exportPfx : String) (l : List Export) :
    ((collectResourceExportsByPfx exportPfx l).map Prod.fst).Nodup := by
  suffices h : ∀ (acc : JsRecord ResourceExport), (acc.map Prod.fst).Nodup →
      ((l.foldl (collectStep exportPfx) acc).map Prod.fst).Nodup by
    exact h [] (by simp)
  induction l with
  | nil => exact fun acc h => h
  | cons e tl ih =>
    intro acc h
    rw [List.foldl_cons]
    apply ih
    rw [collectStep_eq]
    by_cases hp : (splitExportName e.Name).pfx = some exportPfx
    · rw [if_pos hp, jsSet_keys]
      by_cases hm : exportKey e ∈ acc.map Prod.fst
      · rw [if_pos hm]
        exact h
      · rw [if_neg hm]
        simp [List.nodup_append, h, hm]
    · rw [if_neg hp]
      exact h

/-- C8: over well-formed five-field exports matching the configured first
field, the collector produces a record with no duplicate keys, holding an
entry exactly for the keys occurring in the list, and - when each key has at
most one arn export and at most one description export - the record's
content is the same for any permutation of the input list. -/
theorem c8_collector_canonical (exportPfx : String) (l l2 : List Export)
    (hwf : ∀ e ∈ l, (jsSplit ':' e.Name).length = 5 ∧
      (splitExportName e.Name).pfx = some exportPfx)
    (harn : ∀ k, (l.filter (isArnB exportPfx k)).length ≤ 1)
    (hdesc : ∀ k, (l.filter (isDescB exportPfx k)).length ≤ 1)
    (hperm : l2.Perm l) :
    ((collectResourceExportsByPfx exportPfx l).map Prod.fst).Nodup ∧
    (∀ k, (jsGet (collectResourceExportsByPfx exportPfx l) k).isSome = true ↔
      ∃ e ∈ l, exportKey e = k) ∧
    (∀ k, jsGet (collectResourceExportsByPfx exportPfx l2) k =
      jsGet (collectResourceExportsByPfx exportPfx l) k) := by
  refine ⟨collect_keys_nodup _ _, ?_, ?_⟩
  · intro k
    rw [collect_char]
    by_cases hany : l.any (matchesKeyB exportPfx k) = true
    · rw [if_pos hany]
      simp only [Option.isSome_some, true_iff]
      obtain ⟨e, he, hm⟩ := List.any_eq_true.mp hany
      exact ⟨e, he, (matchesKeyB_eq_true.mp hm).2⟩
    · rw [if_neg hany]
      have hall := List.any_eq_false.mp (Bool.eq_false_iff.mpr hany)
      constructor
      · intro hcontra
        simp [Option.isSome] at hcontra
      · rintro ⟨e, he, hk⟩
        exact absurd (matchesKeyB_eq_true.mpr ⟨(hwf e he).2, hk⟩) (hall e he)
  · intro k
    rw [collect_char, collect_char, any_perm hperm (matchesKeyB exportPfx k)]
    by_cases h : l.any (matchesKeyB exportPfx k) = true
    · rw [if_pos h, if_pos h]
      have hfa : l2.filter (isArnB exportPfx k) = l.filter (isArnB exportPfx k) :=
        perm_eq_of_length_le_one (hperm.filter _) (harn k)
      have hfd : l2.filter (isDescB exportPfx k) = l.filter (isDescB exportPfx k) :=
        perm_eq_of_length_le_one (hperm.filter _) (hdesc k)
      simp only [lastArnValue, lastDescValue]
      rw [hfa, hfd]
    · rw [if_neg h, if_neg h]

theorem c8_collector_canonical_witness :
    (∀ e ∈ [(⟨"sid", "aser:orders:createOrder:function:arn", "arnValue"⟩ : Export)],
      (jsSplit ':' e.Name).length = 5 ∧ (splitExportName e.Name).pfx = some "aser") ∧
    (∀ k, (jsGet (collectResourceExportsByPfx "aser"
        [⟨"sid", "aser:orders:createOrder:function:arn", "arnValue"⟩]) k).isSome = true ↔
      ∃ e ∈ [(⟨"sid", "aser:orders:createOrder:function:arn", "arnValue"⟩ : Export)],
        exportKey e = k) :=
  ⟨by decide,
   (c8_collector_canonical "aser"
     [⟨"sid", "aser:orders:createOrder:function:arn", "arnValue"⟩]
     [⟨"sid", "aser:orders:createOrder:function:arn", "arnValue"⟩]
     (by decide)
     (fun k => List.length_filter_le _ _)
     (fun k => List.length_filter_le _ _)
     (List.Perm.refl _)).2.1⟩

end Sarg
